import Mathlib

/-!
# Verification of `eval_performance.py`

A shallow embedding, in Lean 4, of the core logic of
`src/docker/eval-verismith/eval_performance.py`: the fingerprint registry
that deduplicates generated designs, the cell-count-bounded trial loop,
the timeout handling around the external equivalence check, the ordered
collection of results from the worker pool, the text-level construction of
the equivalence-checking wrapper module, and the `re.sub`-based renaming of
`module<number>` identifiers.

Python strings are embedded as `List Char`; the line-oriented text
processing (`strip`, `split`, `startswith`, `endswith`, `replace`,
`re.sub`) is implemented by executable scanners with the same left-to-right
non-overlapping semantics as the Python originals.  Machine-level behaviour
of CPython's builtin `hash` is embedded as a seed-parameterised signed
64-bit hash, following the documented hash randomisation of string hashing
(`PYTHONHASHSEED`) and the documented `Py_hash_t` range.
-/

namespace EvalPerf

/-- `MAX_NUM_CELLS` (source line 30). -/
def MAX_NUM_CELLS : Nat := 10000

/-- `TIMEOUT_SECONDS` (source line 31); durations are rationals in the
embedding. -/
def TIMEOUT_SECONDS : ℚ := 5

/-- The numeric value of `signal.SIGKILL` on Linux (used at source
line 170). -/
def SIGKILL : Nat := 9

/-! ## Design registry (spec §4.2, source lines 174-187)

The shared `set_of_design_hashes` together with the check-then-insert
performed under `with lock:` at lines 183-187.  The lock serialises every
check-then-insert across workers, so a run of the registry is a sequence of
`try_register` calls; the registry state is the list of registered
fingerprints. -/

/-- One locked check-then-insert: if the fingerprint is already present the
set is returned unchanged with `false` (the attempt is rejected), otherwise
the fingerprint is appended and the attempt is accepted. -/
def try_register (s : List String) (fp : String) : List String × Bool :=
  if fp ∈ s then (s, false) else (s ++ [fp], true)

/-- A serialised run of registration attempts: applies `try_register` to
each fingerprint in turn, recording each attempt with its outcome. -/
def runRegister : List String → List String → List (String × Bool)
  | _, [] => []
  | s, fp :: rest =>
    (fp, (try_register s fp).2) :: runRegister (try_register s fp).1 rest

/-! ## Trial executor loop (spec §4.4, source lines 178-206)

The `while` loop of `test_new_design`: each loop iteration takes the next
generated design (a fingerprint plus the cell count the cell-count adapter
would report for it), rejects duplicates under the lock, otherwise writes
the design file and probes the cell count, looping while the count exceeds
`MAX_NUM_CELLS`.  The candidate stream is finite in the embedding; `none`
models a run in which the generator never produces an acceptable design. -/

/-- A generated design, reduced to the two attributes the loop inspects. -/
structure Candidate where
  fingerprint : String
  numCells : Nat
deriving DecidableEq

/-- Outcome of the external `yosys` equivalence process: it either finishes
within `TIMEOUT_SECONDS` having taken `elapsed` wall-clock time, or it is
still running when the timeout expires. -/
inductive CheckResult where
  | completed (elapsed : ℚ)
  | timedOut
deriving DecidableEq

/-- The measurement section of `check_equiv` (source lines 159-172): on
completion it returns the elapsed duration and sends no signal; on
`subprocess.TimeoutExpired` it sends `SIGKILL` to the process via `os.kill`
and returns `None` (embedded as `none`) instead of raising.  The first
component is the returned duration, the second the signal sent. -/
def checkEquivMeasure : CheckResult → Option ℚ × Option Nat
  | .completed t => (some t, none)
  | .timedOut => (none, some SIGKILL)

/-- The acquisition loop of `test_new_design` (source lines 179-192).
State: the shared registry and the list of design fingerprints whose files
have been written to `tmp/designs` so far.  Returns the accepted cell count
together with the final registry and write list, or `none` when the
candidate stream is exhausted.  Note that the design file is written
(line 190-191) after the duplicate check but before the cell count is
known. -/
def testNewDesignLoop :
    List String → List String → List Candidate → Option (Nat × List String × List String)
  | _, _, [] => none
  | registry, writes, c :: rest =>
    if c.fingerprint ∈ registry then testNewDesignLoop registry writes rest
    else
      if c.numCells > MAX_NUM_CELLS then
        testNewDesignLoop (registry ++ [c.fingerprint]) (writes ++ [c.fingerprint]) rest
      else some (c.numCells, registry ++ [c.fingerprint], writes ++ [c.fingerprint])

/-- `test_new_design` (source lines 178-206): run the acquisition loop,
then the equivalence check; `None` check durations are replaced by
`TIMEOUT_SECONDS` (lines 204-205) before the `(num_cells, check_duration)`
pair is returned. -/
def test_new_design (registry : List String) (candidates : List Candidate)
    (check : CheckResult) : Option ((Nat × ℚ) × List String × List String) :=
  match testNewDesignLoop registry [] candidates with
  | none => none
  | some (ncells, registry', writes') =>
    some ((ncells, match (checkEquivMeasure check).1 with
                   | none => TIMEOUT_SECONDS
                   | some t => t), registry', writes')

/-! ## Trial scheduler (spec §4.5, source lines 208-209)

`pool.starmap(test_new_design, ((set, lock, i) for i in range(num_workloads)))`
distributes the workloads over the pool; per the documented contract of
`multiprocessing.Pool.starmap` each result is delivered at the position of
its workload id, whatever order the workers finish in.  The embedding makes
the completion order explicit: an arbitrary list of workload ids in the
order their trials finish, each writing its outcome into the slot of its
workload id. -/

/-- The result list assembled by the pool: starting from `num_trials` empty
slots, the trial for workload `i` stores its outcome `f i` at position `i`
at the moment it completes. -/
def pool_starmap {α : Type} (n : Nat) (f : Nat → α) (order : List Nat) : List (Option α) :=
  order.foldl (fun acc i => acc.set i (some (f i))) (List.replicate n none)

/-! ## Renaming of generated module names (spec §4.3 step 1, source lines 56-58)

`re.sub(r"(module\d+)", r"\1_replacedname", verilog_str)` rewrites every
maximal occurrence of the literal `module` followed by one or more digits,
appending `_replacedname`.  The scanner below reproduces `re.sub`'s
left-to-right, non-overlapping behaviour: matches are located leftmost
first, a match consumes its maximal digit run, and scanning resumes after
the match in the original text (replacement text is not rescanned). -/

/-- The characters of the replacement suffix appended by the `re.sub` call
in `rename_all_verismith_modules`. -/
def renameSuffix : List Char := "_replacedname".data

/-- Does the text begin with a match of `module\d+`, i.e. the literal
`module` followed by at least one digit? -/
def isModuleMatch (l : List Char) : Bool :=
  decide (l.take 6 = "module".data) && ((l[6]?).getD 'x').isDigit

/-- Fuelled scanner for the `re.sub` call; the fuel is always instantiated
with the length of the text, which suffices because every step consumes at
least one character. -/
def renameAuxF : Nat → List Char → List Char
  | 0, l => l
  | _ + 1, [] => []
  | fuel + 1, c :: rest =>
    if isModuleMatch (c :: rest) then
      "module".data ++ (rest.drop 5).takeWhile Char.isDigit ++ renameSuffix ++
        renameAuxF fuel ((rest.drop 5).dropWhile Char.isDigit)
    else c :: renameAuxF fuel rest

/-- Embedding of `rename_all_verismith_modules` (source lines 56-58). -/
def rename_all_verismith_modules (s : List Char) : List Char := renameAuxF s.length s

/-- Fuelled scanner checking that every maximal `module<digits>` match in a
text is immediately followed by the suffix `_replacedname`. -/
def amsF : Nat → List Char → Bool
  | 0, _ => true
  | _ + 1, [] => true
  | fuel + 1, c :: rest =>
    if isModuleMatch (c :: rest) then
      decide (((rest.drop 5).dropWhile Char.isDigit).take renameSuffix.length = renameSuffix) &&
        amsF fuel (((rest.drop 5).dropWhile Char.isDigit).drop renameSuffix.length)
    else amsF fuel rest

/-- `allMatchesSuffixed s` holds when every occurrence of `module<digits>`
in `s` is immediately followed by `_replacedname`. -/
def allMatchesSuffixed (s : List Char) : Bool := amsF s.length s

/-! ## Line-oriented text helpers

Embeddings of the Python string operations used by `check_equiv`:
`str.strip` (`trimCL`), `str.split` on a single separator character
(`splitOnChar`, which like Python keeps empty fields), `str.startswith`
(`startsW`), `str.endswith` (`endsW`) and `str.replace` (`str_replace`,
replacing every non-overlapping occurrence left to right). -/

/-- The whitespace characters stripped by Python's `str.strip()`. -/
def wsp (c : Char) : Bool :=
  c = ' ' || c = '\t' || c = '\n' || c = '\r' || c = '\x0b' || c = '\x0c'

/-- `str.strip()`. -/
def trimCL (l : List Char) : List Char :=
  ((l.dropWhile wsp).reverse.dropWhile wsp).reverse

/-- `str.split(sep)` for a one-character separator: splits at every
occurrence, keeping empty fields, and always returns at least one field. -/
def splitOnChar (sep : Char) : List Char → List (List Char)
  | [] => [[]]
  | c :: rest =>
    if c = sep then [] :: splitOnChar sep rest
    else
      match splitOnChar sep rest with
      | [] => [[c]]
      | h :: t => (c :: h) :: t

/-- `str.startswith(p)`. -/
def startsW (p l : List Char) : Bool := decide (l.take p.length = p)

/-- `str.endswith(p)`. -/
def endsW (p l : List Char) : Bool := decide (l.drop (l.length - p.length) = p)

/-- Fuelled scanner for `str.replace(pat, rep)`: replaces every
non-overlapping occurrence of `pat`, scanning left to right.  The fuel is
always instantiated with the length of the text. -/
def replaceAuxF (pat rep : List Char) : Nat → List Char → List Char
  | 0, l => l
  | _ + 1, [] => []
  | fuel + 1, c :: rest =>
    if decide ((c :: rest).take pat.length = pat) then
      rep ++ replaceAuxF pat rep fuel ((c :: rest).drop pat.length)
    else c :: replaceAuxF pat rep fuel rest

/-- `s.replace(pat, rep)`. -/
def str_replace (s pat rep : List Char) : List Char := replaceAuxF pat rep s.length s

/-! ## Preparation of the two designs (source lines 79-95)

The first design's text is only subjected to
`.replace("module top", "module top_first")` (line 85); the second design's
text is first passed through `rename_all_verismith_modules` (line 91) and
then through `.replace("module top", "module top_second")` (line 93). -/

/-- Transformation applied to the first design (source line 85). -/
def transformFirstDesign (s : List Char) : List Char :=
  str_replace s "module top".data "module top_first".data

/-- Transformation applied to the second design (source lines 91-93). -/
def transformSecondDesign (s : List Char) : List Char :=
  str_replace (rename_all_verismith_modules s) "module top".data "module top_second".data

/-- The module names declared in a Verilog text: for every line whose
stripped form starts with `module `, the identifier following that keyword
(up to a space, parenthesis or semicolon). -/
def declaredModuleNames (s : List Char) : List (List Char) :=
  ((splitOnChar '\n' s).filter (fun l => decide ((trimCL l).take 7 = "module ".data))).map
    (fun l => ((trimCL l).drop 7).takeWhile (fun c => !(c == ' ' || c == '(' || c == ';')))

/-! ## Equivalence-wrapper builder (spec §4.3, source lines 97-148)

`check_equiv` locates `module top_first`, collects the `input` declarations
of its body in order, parses each port name as the last space-separated
token minus its trailing semicolon, locates the first line starting with
`output wire` (asserting that it ends in `y;`), and assembles the
`top_equiv` wrapper instantiating `top_first` and `top_second`.  A failed
assertion raises and halts the run; it is embedded as `Except.error`, as is
the `TypeError` that line 107 raises when no `module top_first` line
exists.  (The `input_wire_dimensions` list computed at lines 115-122 is
never used afterwards and is omitted.) -/

/-- Port-name parsing of source lines 119-121: `line.split(" ")[-1][:-1]`. -/
def parseWireName (l : List Char) : List Char :=
  ((splitOnChar ' ' l).getLastD []).dropLast

/-- The stripped `input ...` declaration lines of the `top_first` module
body, in declaration order (source lines 99-112): the lines from the
`module top_first` header up to the first `endmodule`, filtered to those
whose stripped form starts with `input`. -/
def inputWireLines (lines : List (List Char)) : List (List Char) :=
  match lines.findIdx? (fun l => startsW "module top_first".data (trimCL l)) with
  | none => []
  | some i =>
    (((lines.drop i).takeWhile (fun l => !startsW "endmodule".data (trimCL l))).filter
      (fun l => startsW "input".data (trimCL l))).map trimCL

/-- `input_wire_names` (source lines 116-123): the parsed port names, in
declaration order. -/
def input_wire_names (lines : List (List Char)) : List (List Char) :=
  (inputWireLines lines).map parseWireName

/-- The comma-separated named-port binding list
`', '.join(map(lambda s: '.'+s, input_wire_names))` used for both
instances (source lines 142-143). -/
def instBindings (names : List (List Char)) : List Char :=
  List.intercalate ", ".data (names.map (fun n => '.' :: n))

/-- The construction of `new_top_lines` (source lines 99-144), including
the two fatal conditions: no `module top_first` line (the Python slice of
line 107 raises `TypeError` when `top_first_line_id` is `None`) and the
`assert` of lines 131-134 on the output-wire declaration. -/
def buildNewTopLines (lines : List (List Char)) : Except String (List (List Char)) :=
  match lines.findIdx? (fun l => startsW "module top_first".data (trimCL l)) with
  | none => .error "TypeError: NoneType used as a slice index"
  | some _ =>
    match lines.find? (fun l => startsW "output wire".data (trimCL l)) with
    | none => .error "AssertionError: could not find the output wire line"
    | some owl =>
      if endsW "y;".data (trimCL owl) then
        .ok ([("module top_equiv (y_a, y_b, ".data ++
                List.intercalate ", ".data (input_wire_names lines) ++ ");".data),
              str_replace (trimCL owl) "y;".data "y_a;".data,
              str_replace (trimCL owl) "y;".data "y_b;".data]
             ++ inputWireLines lines
             ++ [("top_first top_first_inst (.y(y_a), ".data ++
                   instBindings (input_wire_names lines) ++ ");".data),
                 ("top_second top_second_inst (.y(y_b), ".data ++
                   instBindings (input_wire_names lines) ++ ");".data),
                 "endmodule".data])
      else .error "AssertionError: output wire line pattern"

/-- Whether the wrapper builder halts the run with an uncaught exception. -/
def buildFails (lines : List (List Char)) : Bool :=
  match buildNewTopLines lines with
  | .error _ => true
  | .ok _ => false

/-! ## Fingerprints (source lines 83 and 182)

`hex(abs(hash(design)))[2:]` padded to width 16 by `f"{...:0>16}"`.
CPython's `hash` on `str` is randomised per process (`PYTHONHASHSEED`) and
returns a signed 64-bit `Py_hash_t`; the embedding is a seed-parameterised
hash with exactly those two documented properties (seed dependence and the
signed 64-bit range).  Its precise mixing function stands in for SipHash,
whose internals the source never relies on. -/

/-- One hexadecimal digit, lowercase, as produced by Python's `hex`. -/
def pyHexDigit (n : Nat) : Char :=
  if n < 10 then Char.ofNat ('0'.toNat + n) else Char.ofNat ('a'.toNat + (n - 10))

/-- Fuelled digit-extraction loop for `hex`; fuel `n` always suffices. -/
def pyHexAux : Nat → Nat → List Char
  | 0, _ => []
  | fuel + 1, n => if n = 0 then [] else pyHexAux fuel (n / 16) ++ [pyHexDigit (n % 16)]

/-- `hex(n)[2:]` for a non-negative `n`: its hexadecimal digits without the
`0x` prefix; `hex(0)[2:]` is `"0"`. -/
def pyHex (n : Nat) : List Char := if n = 0 then ['0'] else pyHexAux n n

/-- The format specifier `:0>16`: left-pad with `'0'` to width 16. -/
def padLeft16 (s : List Char) : List Char := List.replicate (16 - s.length) '0' ++ s

/-- Model of CPython's randomised string hashing: a per-process seed
(`PYTHONHASHSEED`) parameterises the hash, and the result lies in the
signed 64-bit `Py_hash_t` range. -/
def pythonStrHash (seed : Nat) (s : List Char) : Int :=
  let u : Nat := s.foldl (fun a c => (a * 1000003 + c.toNat) % 2 ^ 64) (seed % 2 ^ 64)
  if u < 2 ^ 63 then (u : Int) else (u : Int) - 2 ^ 64

/-- The fingerprint computed at source line 182:
`f"{hex(abs(hash(design)))[2:]:0>16}"`, in a process whose hash seed is
`seed`. -/
def designFingerprint (seed : Nat) (s : List Char) : List Char :=
  padLeft16 (pyHex (pythonStrHash seed s).natAbs)

/-! ## Registry lemmas -/

/-! ## Concrete test vectors -/

/-- A renamed first design in the fixed generator output format, as a line
list: inputs `a` (1-bit) and `b` (4-bit), output `y` (spec §8's
port-order example). -/
def exGoodLines : List (List Char) :=
  ["module top_first (y, a, b);".data,
   "  input wire a;".data,
   "  input wire [3:0] b;".data,
   "  output wire y;".data,
   "endmodule".data]

/-- `exGoodLines` with the declared order of the two inputs swapped. -/
def exSwappedLines : List (List Char) :=
  ["module top_first (y, a, b);".data,
   "  input wire [3:0] b;".data,
   "  input wire a;".data,
   "  output wire y;".data,
   "endmodule".data]

/-- The wrapper module the builder produces for `exGoodLines`. -/
def exGoodWrapper : List (List Char) :=
  ["module top_equiv (y_a, y_b, a, b);".data,
   "output wire y_a;".data,
   "output wire y_b;".data,
   "input wire a;".data,
   "input wire [3:0] b;".data,
   "top_first top_first_inst (.y(y_a), .a, .b);".data,
   "top_second top_second_inst (.y(y_b), .a, .b);".data,
   "endmodule".data]

/-- A design whose first `output wire` line declares `z`, although a
matching `output wire ... y;` declaration follows later. -/
def exZFirstLines : List (List Char) :=
  ["module top_first (y, z, a);".data,
   "  input wire a;".data,
   "  output wire z;".data,
   "  output wire y;".data,
   "endmodule".data]

/-- A design with no output declaration at all. -/
def exNoOutputLines : List (List Char) :=
  ["module top_first (y, a);".data,
   "  input wire a;".data,
   "endmodule".data]

/-- A design text containing a submodule literally named `module7` next to
the `top` module (spec §8's collision example). -/
def exMod7Design : List Char :=
  "module module7 (y);\nendmodule\nmodule top (y);\nendmodule".data

lemma card_insert_sdiff {α : Type} [DecidableEq α] {A B : Finset α} {fp : α} (h : fp ∉ B) :
    ((A \ B).erase fp).card + 1 = (insert fp A \ B).card := by
  have h1 : insert fp A \ B = insert fp (A \ B) := by
    ext x
    simp only [Finset.mem_sdiff, Finset.mem_insert]
    constructor
    · rintro ⟨hx | hx, hb⟩
      · exact Or.inl hx
      · exact Or.inr ⟨hx, hb⟩
    · rintro (rfl | ⟨hx, hb⟩)
      · exact ⟨Or.inl rfl, h⟩
      · exact ⟨Or.inr hx, hb⟩
  rw [h1]
  by_cases hm : fp ∈ A \ B
  · rw [Finset.insert_eq_self.mpr hm]
    exact Finset.card_erase_add_one hm
  · rw [Finset.erase_eq_of_not_mem hm, Finset.card_insert_of_not_mem hm]

lemma runRegister_count_accepted (fps : List String) : ∀ s : List String,
    (runRegister s fps).countP (fun p => p.2) = (fps.toFinset \ s.toFinset).card := by
  induction fps with
  | nil => intro s; simp [runRegister]
  | cons fp rest ih =>
    intro s
    by_cases h : fp ∈ s
    · rw [runRegister]
      simp only [try_register, if_pos h, List.countP_cons]
      rw [ih s]
      simp only [List.toFinset_cons]
      rw [Finset.insert_sdiff_of_mem _ (List.mem_toFinset.mpr h)]
      simp
    · rw [runRegister]
      simp only [try_register, if_neg h, List.countP_cons]
      rw [ih (s ++ [fp])]
      simp only [List.toFinset_cons, List.toFinset_append, List.toFinset_cons,
        List.toFinset_nil]
      have h2 : s.toFinset ∪ insert fp ∅ = insert fp s.toFinset := by
        ext x
        simp only [Finset.mem_union, Finset.mem_insert, Finset.not_mem_empty, or_false]
        exact or_comm
      rw [h2, Finset.sdiff_insert]
      simp only [if_pos trivial]
      exact card_insert_sdiff (fun hm => h (List.mem_toFinset.mp hm))

lemma runRegister_fp_zero_of_mem (fps : List String) : ∀ s fp0, fp0 ∈ s →
    (runRegister s fps).countP (fun p => p.1 == fp0 && p.2) = 0 := by
  induction fps with
  | nil => intro s fp0 _; simp [runRegister]
  | cons fp rest ih =>
    intro s fp0 h0
    by_cases h : fp ∈ s
    · rw [runRegister]
      have := ih s fp0 h0
      simpa [try_register, if_pos h, List.countP_cons] using this
    · rw [runRegister]
      have hne : fp ≠ fp0 := fun he => h (he ▸ h0)
      simp only [try_register, if_neg h, List.countP_cons]
      rw [ih (s ++ [fp]) fp0 (List.mem_append_left _ h0)]
      simp [hne]

lemma runRegister_fp_one (fps : List String) : ∀ s fp0, fp0 ∉ s → fp0 ∈ fps →
    (runRegister s fps).countP (fun p => p.1 == fp0 && p.2) = 1 := by
  induction fps with
  | nil => intro s fp0 _ h; exact absurd h (List.not_mem_nil fp0)
  | cons fp rest ih =>
    intro s fp0 hs hm
    by_cases he : fp = fp0
    · subst he
      rw [runRegister]
      simp only [try_register, if_neg hs, List.countP_cons]
      rw [runRegister_fp_zero_of_mem rest (s ++ [fp]) fp
        (List.mem_append_right s (List.mem_cons_self fp []))]
      simp
    · have hm' : fp0 ∈ rest := by
        rcases List.mem_cons.mp hm with h1 | h1
        · exact absurd h1.symm he
        · exact h1
      rw [runRegister]
      by_cases h : fp ∈ s
      · simp only [try_register, if_pos h, List.countP_cons]
        rw [ih s fp0 hs hm']
        simp [he]
      · simp only [try_register, if_neg h, List.countP_cons]
        have hs' : fp0 ∉ s ++ [fp] := by
          intro hc
          rcases List.mem_append.mp hc with h1 | h1
          · exact hs h1
          · exact he (List.mem_singleton.mp h1).symm
        rw [ih (s ++ [fp]) fp0 hs' hm']
        simp [he]

/-! ## Scheduler lemmas -/

lemma foldl_set_getElem? {α : Type} (f : Nat → α) (order : List Nat) :
    ∀ acc : List (Option α), (∀ i ∈ order, i < acc.length) → ∀ j,
      (order.foldl (fun acc i => acc.set i (some (f i))) acc)[j]? =
        if j ∈ order then some (some (f j)) else acc[j]? := by
  induction order with
  | nil => intro acc _ j; simp
  | cons i rest ih =>
    intro acc hlen j
    rw [List.foldl_cons]
    rw [ih (acc.set i (some (f i)))
      (fun k hk => by rw [List.length_set]; exact hlen k (List.mem_cons_of_mem i hk)) j]
    by_cases hj : j ∈ rest
    · rw [if_pos hj, if_pos (List.mem_cons_of_mem i hj)]
    · by_cases hij : j = i
      · subst hij
        rw [if_neg hj, if_pos (List.mem_cons_self j rest)]
        exact List.getElem?_set_self (hlen j (List.mem_cons_self j rest))
      · rw [if_neg hj, if_neg (fun hc => (List.mem_cons.mp hc).elim hij hj)]
        exact List.getElem?_set_ne (fun h => hij h.symm)

/-! ## Trial loop lemmas -/

lemma testNewDesignLoop_cells_le (cs : List Candidate) : ∀ reg w n reg' w',
    testNewDesignLoop reg w cs = some (n, reg', w') → n ≤ MAX_NUM_CELLS := by
  induction cs with
  | nil => intro reg w n reg' w' h; exact absurd h (by simp [testNewDesignLoop])
  | cons c rest ih =>
    intro reg w n reg' w' h
    rw [testNewDesignLoop] at h
    by_cases h1 : c.fingerprint ∈ reg
    · rw [if_pos h1] at h
      exact ih reg w n reg' w' h
    · rw [if_neg h1] at h
      by_cases h2 : c.numCells > MAX_NUM_CELLS
      · rw [if_pos h2] at h
        exact ih _ _ n reg' w' h
      · rw [if_neg h2] at h
        have : c.numCells = n := congrArg (fun o => (o.getD (0, [], [])).1) h
        omega

lemma testNewDesignLoop_lockstep (cs : List Candidate) : ∀ reg w out,
    testNewDesignLoop reg w cs = some out →
    ∃ Δ : List String, out.2.1 = reg ++ Δ ∧ out.2.2 = w ++ Δ ∧ Δ.Nodup ∧
      ∀ fp ∈ Δ, fp ∉ reg := by
  induction cs with
  | nil => intro reg w out h; exact absurd h (by simp [testNewDesignLoop])
  | cons c rest ih =>
    intro reg w out h
    rw [testNewDesignLoop] at h
    by_cases h1 : c.fingerprint ∈ reg
    · rw [if_pos h1] at h
      exact ih reg w out h
    · rw [if_neg h1] at h
      by_cases h2 : c.numCells > MAX_NUM_CELLS
      · rw [if_pos h2] at h
        obtain ⟨Δ, hr, hw, hnd, hni⟩ := ih _ _ out h
        refine ⟨c.fingerprint :: Δ, ?_, ?_, ?_, ?_⟩
        · rw [hr]; simp
        · rw [hw]; simp
        · refine List.nodup_cons.mpr ⟨?_, hnd⟩
          intro hc
          exact hni c.fingerprint hc (List.mem_append_right reg (List.mem_singleton.mpr rfl))
        · intro fp hfp
          rcases List.mem_cons.mp hfp with rfl | hfp'
          · exact h1
          · intro hc
            exact hni fp hfp' (List.mem_append_left _ hc)
      · rw [if_neg h2] at h
        refine ⟨[c.fingerprint], ?_, ?_, List.nodup_singleton _, ?_⟩
        · rw [← Option.some_inj.mp h]
        · rw [← Option.some_inj.mp h]
        · intro fp hfp
          rw [List.mem_singleton.mp hfp]
          exact h1

lemma length_dropWhile_le' (p : Char → Bool) (l : List Char) :
    (l.dropWhile p).length ≤ l.length := by
  induction l with
  | nil => simp
  | cons c rest ih =>
    rw [List.dropWhile_cons]
    by_cases h : p c
    · simp only [h, if_true]
      exact le_trans ih (by simp)
    · simp [h]

lemma tail_len_le (rest : List Char) :
    (((rest.drop 5).dropWhile Char.isDigit)).length ≤ rest.length :=
  le_trans (length_dropWhile_le' _ _) (by rw [List.length_drop]; omega)

lemma renameAuxF_nil (f : Nat) : renameAuxF f [] = [] := by
  cases f <;> rfl

lemma amsF_nil (f : Nat) : amsF f [] = true := by
  cases f <;> rfl

lemma renameAuxF_fuel (f1 : Nat) : ∀ (l : List Char) (f2 : Nat),
    l.length ≤ f1 → l.length ≤ f2 → renameAuxF f1 l = renameAuxF f2 l := by
  induction f1 with
  | zero =>
    intro l f2 h1 _
    have : l = [] := List.length_eq_zero.mp (Nat.le_zero.mp h1)
    subst this
    rw [renameAuxF_nil, renameAuxF_nil]
  | succ k ih =>
    intro l f2 h1 h2
    cases l with
    | nil => rw [renameAuxF_nil, renameAuxF_nil]
    | cons c rest =>
      cases f2 with
      | zero => exact absurd h2 (by simp)
      | succ m =>
        rw [renameAuxF, renameAuxF]
        by_cases h : isModuleMatch (c :: rest)
        · rw [if_pos h, if_pos h]
          have hl : ((rest.drop 5).dropWhile Char.isDigit).length ≤ k := by
            have := tail_len_le rest
            simp only [List.length_cons] at h1
            omega
          have hl2 : ((rest.drop 5).dropWhile Char.isDigit).length ≤ m := by
            have := tail_len_le rest
            simp only [List.length_cons] at h2
            omega
          rw [ih _ m hl hl2]
        · rw [if_neg h, if_neg h]
          have hl : rest.length ≤ k := by
            simp only [List.length_cons] at h1; omega
          have hl2 : rest.length ≤ m := by
            simp only [List.length_cons] at h2; omega
          rw [ih rest m hl hl2]

lemma amsF_fuel (f1 : Nat) : ∀ (l : List Char) (f2 : Nat),
    l.length ≤ f1 → l.length ≤ f2 → amsF f1 l = amsF f2 l := by
  induction f1 with
  | zero =>
    intro l f2 h1 _
    have : l = [] := List.length_eq_zero.mp (Nat.le_zero.mp h1)
    subst this
    rw [amsF_nil, amsF_nil]
  | succ k ih =>
    intro l f2 h1 h2
    cases l with
    | nil => rw [amsF_nil, amsF_nil]
    | cons c rest =>
      cases f2 with
      | zero => exact absurd h2 (by simp)
      | succ m =>
        rw [amsF, amsF]
        by_cases h : isModuleMatch (c :: rest)
        · rw [if_pos h, if_pos h]
          have ht := tail_len_le rest
          have hd : (((rest.drop 5).dropWhile Char.isDigit).drop renameSuffix.length).length ≤
              ((rest.drop 5).dropWhile Char.isDigit).length := by
            rw [List.length_drop]; omega
          simp only [List.length_cons] at h1 h2
          rw [ih _ m (by omega) (by omega)]
        · rw [if_neg h, if_neg h]
          simp only [List.length_cons] at h1 h2
          rw [ih rest m (by omega) (by omega)]

lemma rename_match {c : Char} {rest : List Char} (h : isModuleMatch (c :: rest)) :
    rename_all_verismith_modules (c :: rest) =
      "module".data ++ (rest.drop 5).takeWhile Char.isDigit ++ renameSuffix ++
        rename_all_verismith_modules ((rest.drop 5).dropWhile Char.isDigit) := by
  rw [rename_all_verismith_modules, List.length_cons, renameAuxF, if_pos h,
    rename_all_verismith_modules,
    renameAuxF_fuel rest.length _ _ (tail_len_le rest) (le_refl _)]

lemma rename_nomatch {c : Char} {rest : List Char} (h : ¬ isModuleMatch (c :: rest)) :
    rename_all_verismith_modules (c :: rest) = c :: rename_all_verismith_modules rest := by
  rw [rename_all_verismith_modules, List.length_cons, renameAuxF, if_neg h,
    rename_all_verismith_modules]

lemma ams_match {c : Char} {rest : List Char} (h : isModuleMatch (c :: rest)) :
    allMatchesSuffixed (c :: rest) =
      (decide (((rest.drop 5).dropWhile Char.isDigit).take renameSuffix.length = renameSuffix) &&
        allMatchesSuffixed (((rest.drop 5).dropWhile Char.isDigit).drop renameSuffix.length)) := by
  rw [allMatchesSuffixed, List.length_cons, amsF, if_pos h, allMatchesSuffixed]
  have h1 : (((rest.drop 5).dropWhile Char.isDigit).drop renameSuffix.length).length ≤
      rest.length := by
    have := tail_len_le rest
    rw [List.length_drop]
    omega
  rw [amsF_fuel rest.length _ _ h1 (le_refl _)]

lemma ams_nomatch {c : Char} {rest : List Char} (h : ¬ isModuleMatch (c :: rest)) :
    allMatchesSuffixed (c :: rest) = allMatchesSuffixed rest := by
  rw [allMatchesSuffixed, List.length_cons, amsF, if_neg h, allMatchesSuffixed]

lemma renameAuxF_take (f : Nat) : ∀ (l : List Char) (n : Nat), n ≤ 7 →
    (renameAuxF f l).take n = l.take n := by
  induction f with
  | zero => intro l n _; rfl
  | succ k ih =>
    intro l n hn
    cases l with
    | nil => rfl
    | cons c rest =>
      rw [renameAuxF]
      by_cases h : isModuleMatch (c :: rest)
      · rw [if_pos h]
        have hh := h
        rw [isModuleMatch, Bool.and_eq_true_iff] at hh
        obtain ⟨h1, h2⟩ := hh
        replace h1 : (c :: rest).take 6 = "module".data := of_decide_eq_true h1
        have hd : (c :: rest).drop 6 = rest.drop 5 := rfl
        have hds : ∃ d t, (rest.drop 5).takeWhile Char.isDigit = d :: t := by
          have hg : ((c :: rest)[6]?) = (rest.drop 5)[0]? := by
            rw [List.getElem?_cons_succ, List.getElem?_drop]
          cases he : (rest.drop 5) with
          | nil =>
            rw [he] at hg
            simp only [hg, List.getElem?_nil, Option.getD_none] at h2
            exact absurd h2 (by decide)
          | cons d t =>
            rw [he] at hg
            simp only [hg, List.getElem?_cons_zero, Option.getD_some] at h2
            exact ⟨d, t.takeWhile Char.isDigit, List.takeWhile_cons_of_pos h2⟩
        obtain ⟨d, t, hdt⟩ := hds
        have hlen : n ≤ ("module".data ++ (rest.drop 5).takeWhile Char.isDigit).length := by
          rw [List.length_append, hdt]
          simp only [List.length_cons]
          have : ("module".data).length = 6 := rfl
          omega
        have hdecomp : (c :: rest) =
            ("module".data ++ (rest.drop 5).takeWhile Char.isDigit) ++
              (rest.drop 5).dropWhile Char.isDigit := by
          conv_lhs => rw [← List.take_append_drop 6 (c :: rest)]
          rw [h1, hd, List.append_assoc, List.takeWhile_append_dropWhile]
        have lhs_eq : ("module".data ++ (rest.drop 5).takeWhile Char.isDigit ++ renameSuffix ++
            renameAuxF k ((rest.drop 5).dropWhile Char.isDigit)).take n =
            ("module".data ++ (rest.drop 5).takeWhile Char.isDigit).take n := by
          rw [List.append_assoc ("module".data ++ (rest.drop 5).takeWhile Char.isDigit)]
          exact List.take_append_of_le_length hlen
        rw [lhs_eq]
        conv_rhs => rw [hdecomp]
        rw [List.take_append_of_le_length hlen]
      · rw [if_neg h]
        cases n with
        | zero => rfl
        | succ m =>
          rw [List.take_succ_cons, List.take_succ_cons, ih rest m (by omega)]

lemma isModuleMatch_congr {l₁ l₂ : List Char} (h : l₁.take 7 = l₂.take 7) :
    isModuleMatch l₁ = isModuleMatch l₂ := by
  rw [isModuleMatch, isModuleMatch]
  have h6 : l₁.take 6 = l₂.take 6 := by
    have := congrArg (List.take 6) h
    rw [List.take_take, List.take_take] at this
    norm_num at this
    exact this
  have hg : l₁[6]? = l₂[6]? := by
    have g1 : (l₁.take 7)[6]? = l₁[6]? := List.getElem?_take_of_lt (by omega)
    have g2 : (l₂.take 7)[6]? = l₂[6]? := List.getElem?_take_of_lt (by omega)
    rw [← g1, ← g2, h]
  rw [h6, hg]

lemma match_decomp {c : Char} {rest : List Char} (h : isModuleMatch (c :: rest)) :
    ((c :: rest) = "module".data ++ (rest.drop 5).takeWhile Char.isDigit ++
      (rest.drop 5).dropWhile Char.isDigit) ∧
    (∃ d t, (rest.drop 5).takeWhile Char.isDigit = d :: t) := by
  have hh := h
  rw [isModuleMatch, Bool.and_eq_true_iff] at hh
  obtain ⟨h1, h2⟩ := hh
  replace h1 : (c :: rest).take 6 = "module".data := of_decide_eq_true h1
  have hd : (c :: rest).drop 6 = rest.drop 5 := rfl
  constructor
  · conv_lhs => rw [← List.take_append_drop 6 (c :: rest)]
    rw [h1, hd, List.append_assoc, List.takeWhile_append_dropWhile]
  · have hg : ((c :: rest)[6]?) = (rest.drop 5)[0]? := by
      rw [List.getElem?_cons_succ, List.getElem?_drop]
    cases he : (rest.drop 5) with
    | nil =>
      rw [he] at hg
      simp only [hg, List.getElem?_nil, Option.getD_none] at h2
      exact absurd h2 (by decide)
    | cons d t =>
      rw [he] at hg
      simp only [hg, List.getElem?_cons_zero, Option.getD_some] at h2
      exact ⟨d, t.takeWhile Char.isDigit, List.takeWhile_cons_of_pos h2⟩

lemma ams_mod_block (ds Y : List Char) (hds : ∃ d t, ds = d :: t)
    (hdig : ∀ x ∈ ds, Char.isDigit x) (hY : allMatchesSuffixed Y = true) :
    allMatchesSuffixed ("module".data ++ ds ++ renameSuffix ++ Y) = true := by
  obtain ⟨d, t, rfl⟩ := hds
  have hmod : ("module".data : List Char) = 'm' :: "odule".data := rfl
  have hE : "module".data ++ (d :: t) ++ renameSuffix ++ Y =
      'm' :: ("odule".data ++ ((d :: t) ++ (renameSuffix ++ Y))) := by
    rw [hmod]
    simp [List.append_assoc]
  rw [hE]
  set R : List Char := "odule".data ++ ((d :: t) ++ (renameSuffix ++ Y)) with hR
  have hdrop : R.drop 5 = (d :: t) ++ (renameSuffix ++ Y) := by
    rw [hR]
    exact List.drop_left' rfl
  have hmatch : isModuleMatch ('m' :: R) = true := by
    rw [isModuleMatch, Bool.and_eq_true_iff]
    constructor
    · apply decide_eq_true
      rw [hR, hmod]
      rfl
    · have hg : (('m' :: R)[6]?) = (R.drop 5)[0]? := by
        rw [List.getElem?_cons_succ, List.getElem?_drop]
      rw [hg, hdrop]
      simp only [List.cons_append, List.getElem?_cons_zero, Option.getD_some]
      exact hdig d (List.mem_cons_self d t)
  have hdw : (R.drop 5).dropWhile Char.isDigit = renameSuffix ++ Y := by
    rw [hdrop]
    rw [List.dropWhile_append_of_pos hdig]
    have hcons : renameSuffix ++ Y = '_' :: ("replacedname".data ++ Y) := rfl
    rw [hcons]
    exact List.dropWhile_cons_of_neg (by decide)
  rw [ams_match hmatch, hdw]
  have h13 : (renameSuffix ++ Y).take renameSuffix.length = renameSuffix :=
    List.take_left renameSuffix Y
  have hdr : (renameSuffix ++ Y).drop renameSuffix.length = Y :=
    List.drop_left renameSuffix Y
  rw [h13, hdr, hY]
  simp

lemma ams_rename_aux (n : Nat) : ∀ l : List Char, l.length ≤ n →
    allMatchesSuffixed (rename_all_verismith_modules l) = true := by
  induction n with
  | zero =>
    intro l h
    have : l = [] := List.length_eq_zero.mp (Nat.le_zero.mp h)
    subst this
    rfl
  | succ k ih =>
    intro l hl
    cases l with
    | nil => rfl
    | cons c rest =>
      by_cases h : isModuleMatch (c :: rest)
      · rw [rename_match h]
        have hdig : ∀ x ∈ (rest.drop 5).takeWhile Char.isDigit, Char.isDigit x :=
          fun x hx => List.mem_takeWhile_imp hx
        have hY : allMatchesSuffixed
            (rename_all_verismith_modules ((rest.drop 5).dropWhile Char.isDigit)) = true := by
          apply ih
          have := tail_len_le rest
          simp only [List.length_cons] at hl
          omega
        exact ams_mod_block _ _ (match_decomp h).2 hdig hY
      · rw [rename_nomatch h]
        have htake : (c :: rename_all_verismith_modules rest).take 7 = (c :: rest).take 7 := by
          rw [List.take_succ_cons, List.take_succ_cons, rename_all_verismith_modules,
            renameAuxF_take rest.length rest 6 (by omega)]
        have h' : isModuleMatch (c :: rename_all_verismith_modules rest) = false := by
          rw [isModuleMatch_congr htake]
          exact Bool.eq_false_iff.mpr h
        rw [ams_nomatch (Bool.eq_false_iff.mp h')]
        apply ih
        simp only [List.length_cons] at hl
        omega

lemma ams_rename (l : List Char) :
    allMatchesSuffixed (rename_all_verismith_modules l) = true :=
  ams_rename_aux l.length l (le_refl _)

lemma pyHexAux_len (fuel : Nat) : ∀ n k, n < 16 ^ k → (pyHexAux fuel n).length ≤ k := by
  induction fuel with
  | zero => intro n k _; simp [pyHexAux]
  | succ f ih =>
    intro n k hk
    rw [pyHexAux]
    by_cases h : n = 0
    · simp [h]
    · rw [if_neg h, List.length_append]
      cases k with
      | zero =>
        simp only [pow_zero, Nat.lt_one_iff] at hk
        exact absurd hk h
      | succ j =>
        have hdiv : n / 16 < 16 ^ j := by
          rw [Nat.div_lt_iff_lt_mul (by norm_num : 0 < 16)]
          calc n < 16 ^ (j + 1) := hk
            _ = 16 ^ j * 16 := by rw [pow_succ]
        have := ih (n / 16) j hdiv
        simp only [List.length_cons, List.length_nil]
        omega

lemma pyHex_len {n : Nat} (h : n < 16 ^ 16) : (pyHex n).length ≤ 16 := by
  rw [pyHex]
  by_cases h0 : n = 0
  · simp [h0]
  · rw [if_neg h0]
    exact pyHexAux_len n n 16 h

lemma padLeft16_len {s : List Char} (h : s.length ≤ 16) : (padLeft16 s).length = 16 := by
  rw [padLeft16, List.length_append, List.length_replicate]
  omega

lemma foldl_mod_lt (l : List Char) : ∀ a : Nat, a < 2 ^ 64 →
    l.foldl (fun a c => (a * 1000003 + c.toNat) % 2 ^ 64) a < 2 ^ 64 := by
  induction l with
  | nil => intro a ha; exact ha
  | cons c rest ih =>
    intro a _
    rw [List.foldl_cons]
    exact ih _ (Nat.mod_lt _ (by norm_num))

lemma pythonStrHash_natAbs_le (seed : Nat) (s : List Char) :
    (pythonStrHash seed s).natAbs ≤ 2 ^ 63 := by
  rw [pythonStrHash]
  have hu : s.foldl (fun a c => (a * 1000003 + c.toNat) % 2 ^ 64) (seed % 2 ^ 64) < 2 ^ 64 :=
    foldl_mod_lt s _ (Nat.mod_lt _ (by norm_num))
  set u := s.foldl (fun a c => (a * 1000003 + c.toNat) % 2 ^ 64) (seed % 2 ^ 64) with hudef
  by_cases h : u < 2 ^ 63
  · rw [if_pos h]
    simp only [Int.natAbs_ofNat]
    omega
  · rw [if_neg h]
    omega

/-! ## Claim theorems -/

/-- C1: for any sequence of registration attempts with fingerprints drawn
from a finite alphabet (the attempts of all workers serialised by the
shared lock), the count of accepted attempts equals the number of distinct
fingerprints attempted; every attempted fingerprint is accepted exactly
once (its first attempt inserts it and is accepted); and an attempt with
an already-present fingerprint returns `false` without mutating the set. -/
theorem claim_C1_registry_dedup (fps : List String) :
    ((runRegister [] fps).countP (fun p => p.2) = fps.toFinset.card) ∧
    (∀ fp0 ∈ fps, (runRegister [] fps).countP (fun p => p.1 == fp0 && p.2) = 1) ∧
    (∀ s fp0, fp0 ∈ s → try_register s fp0 = (s, false)) := by
  refine ⟨?_, ?_, ?_⟩
  · have := runRegister_count_accepted fps []
    simpa using this
  · intro fp0 hm
    exact runRegister_fp_one fps [] fp0 (List.not_mem_nil fp0) hm
  · intro s fp0 hm
    rw [try_register, if_pos hm]

/-- Witness for C1 at the attempt sequence `["a", "b", "a"]`. -/
theorem claim_C1_registry_dedup_witness :
    ((runRegister [] ["a", "b", "a"]).countP (fun p => p.2) =
      (["a", "b", "a"] : List String).toFinset.card) ∧
    ((runRegister [] ["a", "b", "a"]).countP (fun p => p.1 == "a" && p.2) = 1) ∧
    (try_register ["a"] "a" = (["a"], false)) :=
  ⟨(claim_C1_registry_dedup ["a", "b", "a"]).1,
   (claim_C1_registry_dedup ["a", "b", "a"]).2.1 "a" (List.mem_cons_self "a" ["b", "a"]),
   (claim_C1_registry_dedup ["a", "b", "a"]).2.2 ["a"] "a" (List.mem_singleton.mpr rfl)⟩

/-- C2: whenever the wrapper builder succeeds, the produced wrapper
contains the `top_first` and `top_second` instance lines carrying the
identical named-port binding list, built from the input-port names in the
order they are declared in the first design; and permuting the declared
input lines permutes the extracted name list correspondingly. -/
theorem claim_C2_port_binding :
    (∀ lines w, buildNewTopLines lines = .ok w →
      ("top_first top_first_inst (.y(y_a), ".data ++
        instBindings (input_wire_names lines) ++ ");".data) ∈ w ∧
      ("top_second top_second_inst (.y(y_b), ".data ++
        instBindings (input_wire_names lines) ++ ");".data) ∈ w ∧
      input_wire_names lines = (inputWireLines lines).map parseWireName) ∧
    (∀ l₁ l₂, (inputWireLines l₁).Perm (inputWireLines l₂) →
      (input_wire_names l₁).Perm (input_wire_names l₂)) := by
  constructor
  · intro lines w hok
    rw [buildNewTopLines] at hok
    cases h1 : lines.findIdx? (fun l => startsW "module top_first".data (trimCL l)) with
    | none => rw [h1] at hok; exact absurd hok (by simp)
    | some i =>
      rw [h1] at hok
      cases h2 : lines.find? (fun l => startsW "output wire".data (trimCL l)) with
      | none => rw [h2] at hok; exact absurd hok (by simp)
      | some owl =>
        rw [h2] at hok
        dsimp only at hok
        by_cases h3 : endsW "y;".data (trimCL owl) = true
        · rw [if_pos h3] at hok
          injection hok with hw
          subst hw
          refine ⟨?_, ?_, rfl⟩
          · simp [List.mem_append]
          · simp [List.mem_append]
        · rw [if_neg h3] at hok
          exact absurd hok (by simp)
  · intro l₁ l₂ hperm
    exact hperm.map parseWireName

/-- Witness for C2 at the two-input design of spec §8, and at its
input-swapped variant. -/
theorem claim_C2_port_binding_witness :
    (("top_first top_first_inst (.y(y_a), ".data ++
        instBindings (input_wire_names exGoodLines) ++ ");".data) ∈ exGoodWrapper ∧
     ("top_second top_second_inst (.y(y_b), ".data ++
        instBindings (input_wire_names exGoodLines) ++ ");".data) ∈ exGoodWrapper ∧
     input_wire_names exGoodLines = (inputWireLines exGoodLines).map parseWireName) ∧
    (input_wire_names exSwappedLines).Perm (input_wire_names exGoodLines) :=
  ⟨claim_C2_port_binding.1 exGoodLines exGoodWrapper rfl,
   claim_C2_port_binding.2 exSwappedLines exGoodLines (by decide)⟩

/-- C3: on timeout the measurement section of `check_equiv` sends
`SIGKILL` (an immediate, non-cooperative signal) to the external process
and returns `none` rather than raising; `test_new_design` then substitutes
`TIMEOUT_SECONDS` for the missing duration, so the returned
`(cell_count, duration)` pair always carries a numeric (rational) duration:
exactly the configured timeout on a timed-out run, the elapsed time
otherwise. -/
theorem claim_C3_timeout_substitution :
    (checkEquivMeasure CheckResult.timedOut = (none, some SIGKILL)) ∧
    (∀ reg cs out, test_new_design reg cs CheckResult.timedOut = some out →
      out.1.2 = TIMEOUT_SECONDS) ∧
    (∀ reg cs t out, test_new_design reg cs (CheckResult.completed t) = some out →
      out.1.2 = t) := by
  refine ⟨rfl, ?_, ?_⟩
  · intro reg cs out h
    rw [test_new_design] at h
    cases hl : testNewDesignLoop reg [] cs with
    | none => rw [hl] at h; exact absurd h (by simp)
    | some r =>
      obtain ⟨n, reg', w'⟩ := r
      rw [hl] at h
      dsimp only [checkEquivMeasure] at h
      injection h with h'
      rw [← h']
  · intro reg cs t out h
    rw [test_new_design] at h
    cases hl : testNewDesignLoop reg [] cs with
    | none => rw [hl] at h; exact absurd h (by simp)
    | some r =>
      obtain ⟨n, reg', w'⟩ := r
      rw [hl] at h
      dsimp only [checkEquivMeasure] at h
      injection h with h'
      rw [← h']

/-- Witness for C3 at a one-candidate run whose check times out. -/
theorem claim_C3_timeout_substitution_witness :
    (test_new_design [] [⟨"h1", 3⟩] CheckResult.timedOut =
      some ((3, TIMEOUT_SECONDS), ["h1"], ["h1"])) ∧
    ((((3 : Nat), TIMEOUT_SECONDS), (["h1"] : List String), (["h1"] : List String)).1.2 =
      TIMEOUT_SECONDS) :=
  ⟨by decide,
   claim_C3_timeout_substitution.2.1 [] [⟨"h1", 3⟩]
     ((3, TIMEOUT_SECONDS), ["h1"], ["h1"]) (by decide)⟩

/-- C4: for every trial count `n`, outcome function and completion order
(any permutation of the workload ids), the scheduler's result list places
the outcome of workload `i` at position `i` and has length `n` — i.e. it
equals the in-order map of the outcomes, regardless of completion order. -/
theorem claim_C4_result_order {α : Type} (n : Nat) (f : Nat → α) (order : List Nat)
    (hperm : order.Perm (List.range n)) :
    pool_starmap n f order = (List.range n).map (fun i => some (f i)) := by
  have hmem : ∀ j, j ∈ order ↔ j < n := by
    intro j
    rw [hperm.mem_iff, List.mem_range]
  apply List.ext_getElem?
  intro j
  rw [pool_starmap, foldl_set_getElem? f order (List.replicate n none)
    (fun i hi => by rw [List.length_replicate]; exact (hmem i).mp hi) j]
  by_cases hj : j < n
  · rw [if_pos ((hmem j).mpr hj), List.getElem?_map, List.getElem?_range hj]
    rfl
  · rw [if_neg (fun hc => hj ((hmem j).mp hc))]
    have h1 : (List.replicate (α := Option α) n none)[j]? = none := by
      apply List.getElem?_eq_none
      rw [List.length_replicate]; omega
    have h2 : ((List.range n).map (fun i => some (f i)))[j]? = none := by
      apply List.getElem?_eq_none
      rw [List.length_map, List.length_range]; omega
    rw [h1, h2]

/-- Witness for C4: three workloads completing in the order 1, 0, 2 (the
interleaving of spec §8) still deliver `[f 0, f 1, f 2]`. -/
theorem claim_C4_result_order_witness :
    pool_starmap 3 (fun i => i * 10) [1, 0, 2] =
      (List.range 3).map (fun i => some (i * 10)) :=
  claim_C4_result_order 3 (fun i => i * 10) [1, 0, 2] (by decide)

/-- C5: the trial loop only returns with an accepted design whose cell
count is at most `MAX_NUM_CELLS`; every `(cell_count, duration)` pair
returned by `test_new_design` hence carries `cell_count ≤ 10000`; and on a
stream offering a 10001-cell design followed by a 10000-cell design, the
former is discarded and the latter accepted. -/
theorem claim_C5_cell_bound :
    (∀ reg w cs n reg' w', testNewDesignLoop reg w cs = some (n, reg', w') →
      n ≤ MAX_NUM_CELLS) ∧
    (∀ reg cs chk out, test_new_design reg cs chk = some out →
      out.1.1 ≤ MAX_NUM_CELLS) ∧
    (testNewDesignLoop [] [] [⟨"h1", 10001⟩, ⟨"h2", 10000⟩] =
      some (10000, ["h1", "h2"], ["h1", "h2"])) := by
  refine ⟨?_, ?_, by decide⟩
  · intro reg w cs n reg' w' h
    exact testNewDesignLoop_cells_le cs reg w n reg' w' h
  · intro reg cs chk out h
    rw [test_new_design] at h
    cases hl : testNewDesignLoop reg [] cs with
    | none => rw [hl] at h; exact absurd h (by simp)
    | some r =>
      obtain ⟨n, reg', w'⟩ := r
      rw [hl] at h
      have hle := testNewDesignLoop_cells_le cs reg [] n reg' w' hl
      injection h with h'
      rw [← h']
      exact hle

/-- Witness for C5. -/
theorem claim_C5_cell_bound_witness :
    ((10000 : Nat) ≤ MAX_NUM_CELLS) ∧ ((7 : Nat) ≤ MAX_NUM_CELLS) :=
  ⟨claim_C5_cell_bound.1 [] [] [⟨"h1", 10001⟩, ⟨"h2", 10000⟩] 10000
     ["h1", "h2"] ["h1", "h2"] (by decide),
   claim_C5_cell_bound.2.1 [] [⟨"a", 7⟩] CheckResult.timedOut
     ((7, TIMEOUT_SECONDS), ["a"], ["a"]) (by decide)⟩

/-- C6: every maximal `module<digits>` occurrence in the output of
`rename_all_verismith_modules` — which the pipeline applies only to the
second design — carries the `_replacedname` suffix; on a design declaring
`module7`, the first design's transformation leaves `module7` untouched
while the second design's transformation renames it to
`module7_replacedname`, so the two transformed files declare disjoint
module-name sets (no collision in the merged wrapper). -/
theorem claim_C6_rename_second_only :
    (∀ s : List Char, allMatchesSuffixed (rename_all_verismith_modules s) = true) ∧
    (transformFirstDesign exMod7Design =
      "module module7 (y);\nendmodule\nmodule top_first (y);\nendmodule".data) ∧
    (transformSecondDesign exMod7Design =
      "module module7_replacedname (y);\nendmodule\nmodule top_second (y);\nendmodule".data) ∧
    (declaredModuleNames (transformFirstDesign exMod7Design) =
      ["module7".data, "top_first".data]) ∧
    (declaredModuleNames (transformSecondDesign exMod7Design) =
      ["module7_replacedname".data, "top_second".data]) ∧
    ((declaredModuleNames (transformFirstDesign exMod7Design)).filter
      (fun m => decide (m ∈ declaredModuleNames (transformSecondDesign exMod7Design))) = []) :=
  ⟨ams_rename, by decide, by decide, by decide, by decide, by decide⟩

/-- C7 (code bug): the fingerprint at source line 182 is derived from
CPython's builtin `hash`, which is randomised per process; two processes
with different hash seeds compute different fingerprints for the very same
design text, contradicting the claimed determinism across runs and
processes (spec §9 itself flags this and prescribes a content hash). -/
theorem claim_C7_fingerprint_seed_dependent :
    designFingerprint 0 "module top (y);".data ≠
      designFingerprint 1 "module top (y);".data := by decide

/-- C8 counterexample: on a fresh registry, a candidate design with 10001
cells (above `MAX_NUM_CELLS`) is persisted — its fingerprint `"h1"`
appears in the write list of the run — even though it is discarded and the
accepted design is the later 7-cell candidate, refuting the claim that a
candidate failing the complexity bound is discarded without being
persisted. -/
theorem claim_C8_not_persisted_cx :
    testNewDesignLoop [] [] [⟨"h1", 10001⟩, ⟨"h2", 7⟩] =
      some (7, ["h1", "h2"], ["h1", "h2"]) ∧
    10001 > MAX_NUM_CELLS ∧ "h1" ∈ (["h1", "h2"] : List String) := by decide

/-- C8 (amended): the persisted design files and the registered
fingerprints grow in lockstep — a candidate is written to durable storage
exactly when it passes deduplication, before the complexity check; hence a
duplicate candidate is never persisted (the newly persisted fingerprints
are distinct from each other and from everything already registered), while
a candidate failing the complexity bound is persisted and remains on
disk. -/
theorem claim_C8_persistence :
    ∀ reg w cs out, testNewDesignLoop reg w cs = some out →
      ∃ Δ : List String, out.2.1 = reg ++ Δ ∧ out.2.2 = w ++ Δ ∧ Δ.Nodup ∧
        ∀ fp ∈ Δ, fp ∉ reg :=
  fun reg w cs out h => testNewDesignLoop_lockstep cs reg w out h

/-- Witness for C8 (amended) at a one-candidate run. -/
theorem claim_C8_persistence_witness :
    ∃ Δ : List String, (["a"] : List String) = [] ++ Δ ∧
      (["a"] : List String) = [] ++ Δ ∧ Δ.Nodup ∧
      ∀ fp ∈ Δ, fp ∉ ([] : List String) :=
  claim_C8_persistence [] [] [⟨"a", 3⟩] (3, ["a"], ["a"]) (by decide)

/-- C9 counterexample: in a design whose first `output wire` line declares
`z` while a pattern-matching `output wire ... y;` declaration is present
later, the builder nevertheless halts with a fatal error, refuting the
claim that the builder proceeds whenever such a declaration is present. -/
theorem claim_C9_output_wire_cx :
    (∃ l ∈ exZFirstLines,
      startsW "output wire".data (trimCL l) = true ∧
      endsW "y;".data (trimCL l) = true) ∧
    buildFails exZFirstLines = true := by
  constructor
  · exact ⟨"  output wire y;".data, by decide, by decide, by decide⟩
  · decide

/-- C9 (amended): when no line of the first design matches the expected
pattern (stripped form starting with `output wire` and ending in `y;`),
the builder halts with a fatal error (no fallback parsing); the builder
proceeds exactly when the first line whose stripped form starts with
`output wire` also ends in `y;`, and then derives the `y_a` and `y_b`
declarations from that line. -/
theorem claim_C9_output_wire :
    (∀ lines,
      (∀ l ∈ lines, ¬(startsW "output wire".data (trimCL l) = true ∧
        endsW "y;".data (trimCL l) = true)) →
      buildFails lines = true) ∧
    (∀ lines i owl,
      lines.findIdx? (fun l => startsW "module top_first".data (trimCL l)) = some i →
      lines.find? (fun l => startsW "output wire".data (trimCL l)) = some owl →
      endsW "y;".data (trimCL owl) = true →
      ∃ w, buildNewTopLines lines = .ok w ∧
        w[1]? = some (str_replace (trimCL owl) "y;".data "y_a;".data) ∧
        w[2]? = some (str_replace (trimCL owl) "y;".data "y_b;".data)) := by
  constructor
  · intro lines hno
    rw [buildFails, buildNewTopLines]
    cases h1 : lines.findIdx? (fun l => startsW "module top_first".data (trimCL l)) with
    | none => rfl
    | some i =>
      cases h2 : lines.find? (fun l => startsW "output wire".data (trimCL l)) with
      | none => rfl
      | some owl =>
        have hmem : owl ∈ lines := List.mem_of_find?_eq_some h2
        have hpred : startsW "output wire".data (trimCL owl) = true := by
          have := List.find?_some h2
          simpa using this
        have h3 : ¬ endsW "y;".data (trimCL owl) = true := by
          intro hc
          exact hno owl hmem ⟨hpred, hc⟩
        dsimp only
        rw [if_neg h3]
  · intro lines i owl h1 h2 h3
    refine ⟨[("module top_equiv (y_a, y_b, ".data ++
            List.intercalate ", ".data (input_wire_names lines) ++ ");".data),
          str_replace (trimCL owl) "y;".data "y_a;".data,
          str_replace (trimCL owl) "y;".data "y_b;".data] ++
          inputWireLines lines ++
          [("top_first top_first_inst (.y(y_a), ".data ++
              instBindings (input_wire_names lines) ++ ");".data),
            ("top_second top_second_inst (.y(y_b), ".data ++
              instBindings (input_wire_names lines) ++ ");".data),
            "endmodule".data], ?_, ?_, ?_⟩
    · rw [buildNewTopLines, h1]
      dsimp only
      rw [h2]
      dsimp only
      rw [if_pos h3]
    · simp
    · simp

/-- Witness for C9 (amended): a design with no output declaration halts
the builder, and the well-formed design of spec §8 is built with the
`y_a`/`y_b` declarations derived from its `output wire y;` line. -/
theorem claim_C9_output_wire_witness :
    buildFails exNoOutputLines = true ∧
    (∃ w, buildNewTopLines exGoodLines = .ok w ∧
      w[1]? = some (str_replace (trimCL "  output wire y;".data) "y;".data "y_a;".data) ∧
      w[2]? = some (str_replace (trimCL "  output wire y;".data) "y;".data "y_b;".data)) :=
  ⟨claim_C9_output_wire.1 exNoOutputLines (by decide),
   claim_C9_output_wire.2 exGoodLines 0 "  output wire y;".data
     (by decide) (by decide) (by decide)⟩

/-- C10: for every hash value in the documented signed 64-bit range, and
in particular for every fingerprint the trial executor computes, the
hexadecimal rendering of the absolute value, left-padded with zeros to
width 16, is exactly 16 characters long. -/
theorem claim_C10_fingerprint_width :
    (∀ h : Int, h.natAbs ≤ 2 ^ 63 → (padLeft16 (pyHex h.natAbs)).length = 16) ∧
    (∀ (seed : Nat) (s : List Char), (designFingerprint seed s).length = 16) := by
  constructor
  · intro h hle
    apply padLeft16_len
    apply pyHex_len
    norm_num
    omega
  · intro seed s
    rw [designFingerprint]
    apply padLeft16_len
    apply pyHex_len
    have := pythonStrHash_natAbs_le seed s
    norm_num
    omega

/-- Witness for C10 at the hash value `-255` and at a concrete design. -/
theorem claim_C10_fingerprint_width_witness :
    ((padLeft16 (pyHex ((-255 : Int)).natAbs)).length = 16) ∧
    ((designFingerprint 0 "module top (y);".data).length = 16) :=
  ⟨claim_C10_fingerprint_width.1 (-255) (by decide),
   claim_C10_fingerprint_width.2 0 "module top (y);".data⟩

end EvalPerf
